import Mathlib

/-!
Verification of the `licenses` SBOM report generator.

The program (main.go) parses a CycloneDX BOM, groups components by their
first declared license identifier (sentinel "No License" when none is
declared), optionally audits every declared dependency license against a
two-level compatibility table keyed by the main application license, and
renders a report from the sorted license keys.  This file gives a shallow
embedding of that logic and proves the specification claims about it.
-/

namespace Licenses

/-- Mirrors Go `LicenseStatus`: a status string (c/i/w) and an optional
reason (empty string when absent). -/
structure LicenseStatus where
  status : String
  reason : String
deriving DecidableEq, Repr

/-- Mirrors Go `Compatibility`, a nested map for license compatibility
lookup; modelled as an association list (Go map keys are unique, lookup
is exact-string). -/
abbrev Compatibility := List (String × List (String × LicenseStatus))

/-- The inner `License struct { ID string }` of a component's licenses
entry. -/
structure LicenseRef where
  id : String
deriving DecidableEq, Repr

/-- One element of a component's `Licenses` slice, wrapping a license
reference. -/
structure LicenseEntry where
  license : LicenseRef
deriving DecidableEq, Repr

/-- Mirrors Go `Component`: name, version, and the ordered slice of
declared licenses. -/
structure Component where
  name : String
  version : String
  licenses : List LicenseEntry
deriving DecidableEq, Repr

/-- Mirrors Go `BOM`: the metadata component and the dependency
components. -/
structure BOM where
  metadata : Component
  components : List Component
deriving DecidableEq, Repr

/-- Mirrors Go `GetLicenseStatus`: look up the main license, then the sub
license, returning the stored status and reason, or an error message when
either key is absent. -/
def GetLicenseStatus (comp : Compatibility) (mainLicense subLicense : String) :
    Except String (String × String) :=
  match comp.lookup mainLicense with
  | none => .error ("no entry for main license: " ++ mainLicense)
  | some subMap =>
    match subMap.lookup subLicense with
    | none =>
        .error ("no sub license: " ++ subLicense ++ " for main license: " ++ mainLicense)
    | some ls => .ok (ls.status, ls.reason)

/-- The effective license of a component: the ID of the first element of
its licenses slice, or the sentinel when the slice is empty (the
`licenseID` variable of the grouping loop in main.go). -/
def effectiveLicense (c : Component) : String :=
  match c.licenses with
  | [] => "No License"
  | l :: _ => l.license.id

/-- Mirrors Go `ComponentsByLicense` (map from license ID to slice of
components), modelled as a total function defaulting to the empty list. -/
abbrev ComponentsByLicense := String → List Component

/-- One iteration of the grouping loop: append the component to the slice
at its effective license key. -/
def groupStep (m : ComponentsByLicense) (c : Component) : ComponentsByLicense :=
  fun k => if k = effectiveLicense c then m k ++ [c] else m k

/-- The grouping loop of main.go: fold over the components in order,
appending each to its effective-license group. -/
def groupComponents (cs : List Component) : ComponentsByLicense :=
  cs.foldl groupStep (fun _ => [])

/-- Go map assignment `m[k] = v`: replace the value when the key exists,
otherwise add the binding. -/
def mapInsert (m : List (String × LicenseStatus)) (k : String) (v : LicenseStatus) :
    List (String × LicenseStatus) :=
  if m.any (fun p => p.1 == k) then
    m.map (fun p => if p.1 == k then (k, v) else p)
  else
    m ++ [(k, v)]

/-- The audit body of the grouping loop in main.go, for one component:
components with no declared licenses are skipped; otherwise the first
license ID is resolved against the table, a failed lookup records an
`error` issue with the fixed reason string, and statuses `w`/`i` record
an issue with the stored status and reason. -/
def auditComponent (comp : Compatibility) (mainLic : String)
    (issues : List (String × LicenseStatus)) (c : Component) :
    List (String × LicenseStatus) :=
  match c.licenses with
  | [] => issues
  | l :: _ =>
    match GetLicenseStatus comp mainLic l.license.id with
    | .error _ =>
        mapInsert issues l.license.id
          ⟨"error", "ERROR - License not found in compatibility matrix."⟩
    | .ok (status, reason) =>
        if status = "w" ∨ status = "i" then mapInsert issues l.license.id ⟨status, reason⟩
        else issues

/-- The `compissues` accumulation of main.go over the whole component
list (the audit half of the grouping loop, run when validation is
requested). -/
def auditComponents (comp : Compatibility) (mainLic : String) (cs : List Component) :
    List (String × LicenseStatus) :=
  cs.foldl (auditComponent comp mainLic) []

/-- The `licenseKeys` slice of main.go: the distinct license keys of the
grouped map, sorted with `sort.Strings`. -/
def licenseKeys (cs : List Component) : List String :=
  List.insertionSort (· ≤ ·) ((cs.map effectiveLicense).dedup)

/-- `bom.Metadata.Licenses[len(bom.Metadata.Licenses)-1]` of main.go:
the ID of the last element of the metadata licenses slice; `none` models
the index-out-of-range panic on an empty slice. -/
def applicationLicense (bom : BOM) : Option String :=
  (bom.metadata.licenses.getLast?).map (fun l => l.license.id)

/-- Observable outcome of one happy-path run of main.go. -/
structure RunResult where
  mainLicense : String
  issues : List (String × LicenseStatus)
  groups : ComponentsByLicense
  sortedKeys : List String
  outputWritten : Bool
  exitCode : Nat

/-- The run of main.go after parsing, abstracting the file system:
`none` models a fatal abort (metadata licenses empty, or empty component
list); otherwise the groups, sorted keys and issues are computed, the
output is written, and the exit code is 1 exactly when validation was
requested and issues exist. -/
def runMain (validate : Bool) (table : Compatibility) (bom : BOM) : Option RunResult :=
  match applicationLicense bom with
  | none => none
  | some mainLic =>
    if bom.components.isEmpty then none
    else
      let issues := if validate then auditComponents table mainLic bom.components else []
      some {
        mainLicense := mainLic
        issues := issues
        groups := groupComponents bom.components
        sortedKeys := licenseKeys bom.components
        outputWritten := true
        exitCode := if validate && !issues.isEmpty then 1 else 0
      }

/-! ### Grouping lemmas -/

theorem foldl_groupStep (cs : List Component) (m : ComponentsByLicense) (k : String) :
    cs.foldl groupStep m k = m k ++ cs.filter (fun c => effectiveLicense c == k) := by
  induction cs generalizing m with
  | nil => simp
  | cons c cs ih =>
    rw [List.foldl_cons, ih, List.filter_cons]
    by_cases h : effectiveLicense c = k
    · subst h
      simp [groupStep]
    · simp [groupStep, h, Ne.symm h]

theorem groupComponents_eq_filter (cs : List Component) (k : String) :
    groupComponents cs k = cs.filter (fun c => effectiveLicense c == k) := by
  rw [groupComponents, foldl_groupStep]
  exact List.nil_append _

theorem mem_groupComponents (cs : List Component) (c : Component) (k : String) :
    c ∈ groupComponents cs k ↔ c ∈ cs ∧ effectiveLicense c = k := by
  rw [groupComponents_eq_filter, List.mem_filter]
  simp

/-! ### License-key lemmas -/

theorem licenseKeys_sorted (cs : List Component) : (licenseKeys cs).Sorted (· ≤ ·) :=
  List.sorted_insertionSort _ _

theorem licenseKeys_nodup (cs : List Component) : (licenseKeys cs).Nodup :=
  (List.perm_insertionSort _ _).nodup_iff.mpr ((cs.map effectiveLicense).nodup_dedup)

theorem mem_licenseKeys (cs : List Component) (k : String) :
    k ∈ licenseKeys cs ↔ ∃ c ∈ cs, effectiveLicense c = k := by
  rw [licenseKeys, (List.perm_insertionSort _ _).mem_iff, List.mem_dedup, List.mem_map]

theorem groupComponents_ne_nil (cs : List Component) (k : String) :
    groupComponents cs k ≠ [] ↔ ∃ c ∈ cs, effectiveLicense c = k := by
  rw [groupComponents_eq_filter, Ne, List.filter_eq_nil_iff]
  push_neg
  simp

/-- Claim C7: grouping is total and deterministic; the group at each key
is exactly the order-preserving filter of the input by effective license,
every component lands in the group of its effective license, and an empty
licenses slice degrades to the sentinel key. -/
theorem group_correct (cs : List Component) (k : String) :
    groupComponents cs k = cs.filter (fun c => effectiveLicense c == k) ∧
    (∀ c, c ∈ cs → c ∈ groupComponents cs (effectiveLicense c)) ∧
    (∀ c : Component, c.licenses = [] → effectiveLicense c = "No License") := by
  refine ⟨groupComponents_eq_filter cs k, fun c hc => ?_, fun c hc => ?_⟩
  · rw [mem_groupComponents]
    exact ⟨hc, rfl⟩
  · rw [effectiveLicense, hc]

theorem group_correct_witness :
    groupComponents [(⟨"a", "1", []⟩ : Component)] "No License" =
      List.filter (fun c => effectiveLicense c == "No License") [(⟨"a", "1", []⟩ : Component)] ∧
    (⟨"a", "1", []⟩ : Component) ∈
      groupComponents [(⟨"a", "1", []⟩ : Component)] (effectiveLicense ⟨"a", "1", []⟩) ∧
    effectiveLicense (⟨"a", "1", []⟩ : Component) = "No License" :=
  ⟨(group_correct [⟨"a", "1", []⟩] "No License").1,
   (group_correct [⟨"a", "1", []⟩] "No License").2.1 _ (by simp),
   (group_correct [⟨"a", "1", []⟩] "No License").2.2 _ rfl⟩

/-- Claim C8: deriving the main license fails exactly on an empty
metadata licenses slice; under a non-emptiness precondition the
out-of-range branch is unreachable. -/
theorem applicationLicense_eq_none_iff (bom : BOM) :
    applicationLicense bom = none ↔ bom.metadata.licenses = [] := by
  rw [applicationLicense, Option.map_eq_none', List.getLast?_eq_none_iff]

/-- Claim C3: `GetLicenseStatus` succeeds with exactly the stored status
and reason for every pair present in the table, and fails exactly when
the main license or the sub license is absent. -/
theorem getLicenseStatus_correct (comp : Compatibility) (m d : String) :
    (∀ sm, comp.lookup m = some sm → ∀ ls, sm.lookup d = some ls →
        GetLicenseStatus comp m d = .ok (ls.status, ls.reason)) ∧
    ((∃ e, GetLicenseStatus comp m d = .error e) ↔
      comp.lookup m = none ∨ ∃ sm, comp.lookup m = some sm ∧ sm.lookup d = none) := by
  constructor
  · intro sm hsm ls hls
    unfold GetLicenseStatus
    simp only [hsm, hls]
  · unfold GetLicenseStatus
    cases h1 : comp.lookup m with
    | none => simp [h1]
    | some sm =>
      cases h2 : sm.lookup d with
      | none =>
        simp only [h1, h2]
        exact ⟨fun _ => Or.inr ⟨sm, rfl, h2⟩, fun _ => ⟨_, rfl⟩⟩
      | some ls =>
        simp only [h1, h2]
        constructor
        · rintro ⟨e, he⟩
          exact Except.noConfusion he
        · rintro (hn | ⟨sm2, hsm2, hnone⟩)
          · exact Option.noConfusion hn
          · rw [Option.some.injEq] at hsm2
            rw [hsm2] at h2
            rw [h2] at hnone
            exact Option.noConfusion hnone

theorem getLicenseStatus_correct_witness :
    GetLicenseStatus [("MIT", [("ISC", ⟨"c", "fine"⟩)])] "MIT" "ISC" = .ok ("c", "fine") :=
  (getLicenseStatus_correct [("MIT", [("ISC", ⟨"c", "fine"⟩)])] "MIT" "ISC").1
    [("ISC", ⟨"c", "fine"⟩)] rfl ⟨"c", "fine"⟩ rfl

/-! ### Issue-map lemmas -/

theorem mapInsert_map_fst (m : List (String × LicenseStatus)) (k : String) (v : LicenseStatus) :
    (mapInsert m k v).map Prod.fst =
      if m.any (fun p => p.1 == k) then m.map Prod.fst else m.map Prod.fst ++ [k] := by
  unfold mapInsert
  split
  · rw [List.map_map]
    have hf : (Prod.fst ∘ fun p : String × LicenseStatus =>
        if p.1 == k then (k, v) else p) = Prod.fst := by
      funext p
      by_cases hp : p.1 = k
      · simp [hp]
      · simp [hp]
    rw [hf]
  · simp

theorem mapInsert_keys_nodup (m : List (String × LicenseStatus)) (k : String)
    (v : LicenseStatus) (h : (m.map Prod.fst).Nodup) :
    ((mapInsert m k v).map Prod.fst).Nodup := by
  rw [mapInsert_map_fst]
  split
  · exact h
  case isFalse hany =>
    have hk : k ∉ m.map Prod.fst := by
      intro hmem
      rcases List.mem_map.mp hmem with ⟨p, hp, hpk⟩
      exact hany (List.any_eq_true.mpr ⟨p, hp, by simp [hpk]⟩)
    exact h.append (List.nodup_singleton k)
      (fun a ha hb => hk (by rwa [List.mem_singleton.mp hb] at ha))

theorem auditComponent_keys_nodup (t : Compatibility) (mainLic : String)
    (issues : List (String × LicenseStatus)) (c : Component)
    (h : (issues.map Prod.fst).Nodup) :
    ((auditComponent t mainLic issues c).map Prod.fst).Nodup := by
  unfold auditComponent
  split
  · exact h
  · split
    · exact mapInsert_keys_nodup _ _ _ h
    · split
      · exact mapInsert_keys_nodup _ _ _ h
      · exact h

theorem foldl_audit_keys_nodup (t : Compatibility) (mainLic : String)
    (cs : List Component) (issues : List (String × LicenseStatus))
    (h : (issues.map Prod.fst).Nodup) :
    ((cs.foldl (auditComponent t mainLic) issues).map Prod.fst).Nodup := by
  induction cs generalizing issues with
  | nil => exact h
  | cons c cs ih => exact ih _ (auditComponent_keys_nodup _ _ _ _ h)

/-- Claim C5: the audit result has no two issues with the same license
key — at most one aggregated issue per distinct license, however many
components share it. -/
theorem audit_issues_keys_nodup (t : Compatibility) (mainLic : String) (cs : List Component) :
    ((auditComponents t mainLic cs).map Prod.fst).Nodup ∧
    ∀ k, ((auditComponents t mainLic cs).map Prod.fst).count k ≤ 1 := by
  have h := foldl_audit_keys_nodup t mainLic cs [] (by simp)
  exact ⟨h, List.nodup_iff_count_le_one.mp h⟩

/-- Claim C2 fails on the code: a component with no declared licenses is
never audited, so with an empty table (where the pair (MIT, No License)
is certainly absent) no issue keyed by the sentinel is recorded. -/
theorem unlicensed_not_audited_counterexample :
    auditComponents [] "MIT" [⟨"dep", "1.0", []⟩] = [] ∧
    GetLicenseStatus [] "MIT" "No License" = .error "no entry for main license: MIT" :=
  ⟨rfl, rfl⟩

/-- Claim C2 (amended): when validation is requested, components with an
empty licenses sequence are skipped by the audit — the sentinel key is
never resolved against the table and no issue is recorded for them. -/
theorem audit_skips_unlicensed (t : Compatibility) (mainLic : String)
    (issues : List (String × LicenseStatus)) (c : Component) (h : c.licenses = []) :
    auditComponent t mainLic issues c = issues := by
  unfold auditComponent
  simp only [h]

theorem audit_skips_unlicensed_witness :
    auditComponent [] "MIT" [] ⟨"dep", "1.0", []⟩ = [] :=
  audit_skips_unlicensed [] "MIT" [] ⟨"dep", "1.0", []⟩ rfl

/-- Claim C4 fails on the code: a failed lookup records status "error"
(not "lookup-error") and the reason string carries an "ERROR - " prefix,
so the reason is not exactly "License not found in compatibility
matrix." -/
theorem lookup_issue_strings_counterexample :
    auditComponents [] "MIT" [⟨"d", "1", [⟨⟨"ISC"⟩⟩]⟩] =
      [("ISC", ⟨"error", "ERROR - License not found in compatibility matrix."⟩)] ∧
    ("error" : String) ≠ "lookup-error" ∧
    ("ERROR - License not found in compatibility matrix." : String) ≠
      "License not found in compatibility matrix." :=
  ⟨rfl, by decide, by decide⟩

/-- Claim C4 (amended): for every dependency license whose resolution
fails, the audit records an issue keyed by that license with status
"error" and reason exactly "ERROR - License not found in compatibility
matrix." -/
theorem audit_records_lookup_error (t : Compatibility) (mainLic : String)
    (issues : List (String × LicenseStatus)) (c : Component) (l : LicenseEntry)
    (rest : List LicenseEntry) (hc : c.licenses = l :: rest) (e : String)
    (he : GetLicenseStatus t mainLic l.license.id = .error e) :
    auditComponent t mainLic issues c =
      mapInsert issues l.license.id
        ⟨"error", "ERROR - License not found in compatibility matrix."⟩ := by
  unfold auditComponent
  simp only [hc, he]

theorem audit_records_lookup_error_witness :
    auditComponent [] "MIT" [] ⟨"d", "1", [⟨⟨"ISC"⟩⟩]⟩ =
      mapInsert [] "ISC" ⟨"error", "ERROR - License not found in compatibility matrix."⟩ :=
  audit_records_lookup_error [] "MIT" [] ⟨"d", "1", [⟨⟨"ISC"⟩⟩]⟩ ⟨⟨"ISC"⟩⟩ [] rfl
    "no entry for main license: MIT" rfl

/-- Claim C9: the sorted key slice handed to the template is
lexicographically non-decreasing, duplicate-free, and its members are
exactly the keys of the grouped-components map. -/
theorem sorted_keys_correct (cs : List Component) :
    (licenseKeys cs).Sorted (· ≤ ·) ∧ (licenseKeys cs).Nodup ∧
    ∀ k, (k ∈ licenseKeys cs ↔ groupComponents cs k ≠ []) := by
  refine ⟨licenseKeys_sorted cs, licenseKeys_nodup cs, fun k => ?_⟩
  rw [mem_licenseKeys, groupComponents_ne_nil]

/-! ### Partition lemma -/

theorem flatMap_filter_perm (ks : List String) (cs : List Component)
    (hnd : ks.Nodup) (hcov : ∀ c ∈ cs, effectiveLicense c ∈ ks) :
    (ks.flatMap (fun k => cs.filter (fun c => effectiveLicense c == k))).Perm cs := by
  induction ks generalizing cs with
  | nil =>
    have hcs : cs = [] :=
      List.eq_nil_iff_forall_not_mem.mpr fun c hc => (List.not_mem_nil _) (hcov c hc)
    rw [hcs]
    simp
  | cons k ks ih =>
    rw [List.flatMap_cons]
    have hk : k ∉ ks := (List.nodup_cons.mp hnd).1
    have hnd2 : ks.Nodup := (List.nodup_cons.mp hnd).2
    have hstep : ks.flatMap (fun x => cs.filter (fun c => effectiveLicense c == x)) =
        ks.flatMap (fun x => (cs.filter (fun c => !(effectiveLicense c == k))).filter
          (fun c => effectiveLicense c == x)) := by
      refine List.flatMap_congr fun x hx => ?_
      have hxk : x ≠ k := fun he => hk (he ▸ hx)
      rw [List.filter_filter]
      refine List.filter_congr fun c _ => ?_
      by_cases hck : effectiveLicense c = k
      · simp [hck, Ne.symm hxk]
      · cases hb : (effectiveLicense c == k) with
        | false => simp [hb]
        | true => exact absurd (eq_of_beq hb) hck
    rw [hstep]
    refine (List.Perm.append_left _ (ih _ hnd2 ?_)).trans
      (List.filter_append_perm (fun c => effectiveLicense c == k) cs)
    intro c hcmem
    have hc1 := List.mem_filter.mp hcmem
    rcases List.mem_cons.mp (hcov c hc1.1) with he | hin
    · have h2 := hc1.2
      simp [he] at h2
    · exact hin

/-- Claim C10: grouping partitions the input — every member of a group
has that group's key as its effective license, every key's group is
non-empty, and the concatenation of the groups over the key list is a
permutation of the input component list. -/
theorem group_partitions (cs : List Component) :
    (∀ c k, c ∈ groupComponents cs k → k = effectiveLicense c) ∧
    (∀ k, k ∈ licenseKeys cs → groupComponents cs k ≠ []) ∧
    ((licenseKeys cs).flatMap (fun k => groupComponents cs k)).Perm cs := by
  refine ⟨fun c k hc => ?_, fun k hk => ?_, ?_⟩
  · exact ((mem_groupComponents cs c k).mp hc).2.symm
  · rw [groupComponents_ne_nil]
    exact (mem_licenseKeys cs k).mp hk
  · have hrw : (licenseKeys cs).flatMap (fun k => groupComponents cs k) =
        (licenseKeys cs).flatMap (fun k => cs.filter (fun c => effectiveLicense c == k)) :=
      List.flatMap_congr fun k _ => groupComponents_eq_filter cs k
    rw [hrw]
    exact flatMap_filter_perm _ _ (licenseKeys_nodup cs)
      (fun c hc => (mem_licenseKeys cs _).mpr ⟨c, hc, rfl⟩)

theorem group_partitions_witness :
    ("No License" : String) = effectiveLicense (⟨"a", "1", []⟩ : Component) ∧
    groupComponents [(⟨"a", "1", []⟩ : Component)] "No License" ≠ [] ∧
    ((licenseKeys [(⟨"a", "1", []⟩ : Component)]).flatMap
      (fun k => groupComponents [(⟨"a", "1", []⟩ : Component)] k)).Perm
      [(⟨"a", "1", []⟩ : Component)] :=
  ⟨(group_partitions [⟨"a", "1", []⟩]).1 ⟨"a", "1", []⟩ "No License" (by decide),
   (group_partitions [⟨"a", "1", []⟩]).2.1 "No License" (by decide),
   (group_partitions [⟨"a", "1", []⟩]).2.2⟩

/-! ### Run-level lemmas -/

theorem applicationLicense_of_ne_nil (bom : BOM) (h : bom.metadata.licenses ≠ []) :
    applicationLicense bom = some ((bom.metadata.licenses.getLast h).license.id) := by
  rw [applicationLicense, List.getLast?_eq_getLast_of_ne_nil h, Option.map_some']

theorem runMain_eq (v : Bool) (t : Compatibility) (bom : BOM) (mainLic : String)
    (ha : applicationLicense bom = some mainLic) (hcs : bom.components.isEmpty = false) :
    runMain v t bom = some {
      mainLicense := mainLic
      issues := if v then auditComponents t mainLic bom.components else []
      groups := groupComponents bom.components
      sortedKeys := licenseKeys bom.components
      outputWritten := true
      exitCode :=
        if v && !(if v then auditComponents t mainLic bom.components else []).isEmpty
        then 1 else 0 } := by
  unfold runMain
  rw [ha, hcs]
  rfl

theorem runMain_eq_none_of_no_main (v : Bool) (t : Compatibility) (bom : BOM)
    (ha : applicationLicense bom = none) : runMain v t bom = none := by
  unfold runMain
  rw [ha]

theorem runMain_eq_none_of_no_components (v : Bool) (t : Compatibility) (bom : BOM)
    (hcs : bom.components.isEmpty = true) : runMain v t bom = none := by
  unfold runMain
  cases ha : applicationLicense bom with
  | none => rfl
  | some mainLic =>
    rw [hcs]
    rfl

/-- Claim C1 fails on the code: main.go indexes the LAST element of the
metadata licenses slice, so with metadata licenses [MIT, GPL-3.0] the
main license used by the audit is GPL-3.0, not the first identifier
MIT. -/
theorem main_license_not_first_counterexample :
    (runMain true [] ⟨⟨"app", "1.0", [⟨⟨"MIT"⟩⟩, ⟨⟨"GPL-3.0"⟩⟩]⟩, [⟨"dep", "1.0", []⟩]⟩).map
      RunResult.mainLicense = some "GPL-3.0" ∧ ("GPL-3.0" : String) ≠ "MIT" :=
  ⟨rfl, by decide⟩

/-- Claim C1 (amended): for every BOM whose metadata component declares a
non-empty licenses sequence (and a non-empty component list, so the run
does not abort), the main license used by the audit equals the LAST
declared license identifier of the metadata component. -/
theorem main_license_is_last (v : Bool) (t : Compatibility) (bom : BOM)
    (h1 : bom.metadata.licenses ≠ []) (h2 : bom.components ≠ []) :
    ∃ r, runMain v t bom = some r ∧
      r.mainLicense = (bom.metadata.licenses.getLast h1).license.id := by
  have hne : bom.components.isEmpty = false := by
    cases hcs : bom.components with
    | nil => exact absurd hcs h2
    | cons a l => rfl
  exact ⟨_, runMain_eq v t bom _ (applicationLicense_of_ne_nil bom h1) hne, rfl⟩

theorem main_license_is_last_witness :
    ∃ r, runMain true []
        ⟨⟨"app", "1.0", [⟨⟨"MIT"⟩⟩, ⟨⟨"GPL-3.0"⟩⟩]⟩, [⟨"dep", "1.0", []⟩]⟩ = some r ∧
      r.mainLicense = "GPL-3.0" := by
  obtain ⟨r, hr, hm⟩ := main_license_is_last true []
    ⟨⟨"app", "1.0", [⟨⟨"MIT"⟩⟩, ⟨⟨"GPL-3.0"⟩⟩]⟩, [⟨"dep", "1.0", []⟩]⟩
    (by decide) (by decide)
  refine ⟨r, hr, ?_⟩
  rw [hm]
  rfl

/-- Claim C6: on every non-aborting run the exit code is non-zero exactly
when validation was requested and the issue set is non-empty, the output
is written in both the clean and the flagged case, and without validation
no issues are produced and the outcome is independent of the
compatibility table. -/
theorem run_outcome (v : Bool) (t t2 : Compatibility) (bom : BOM) (r : RunResult)
    (h : runMain v t bom = some r) :
    (r.exitCode ≠ 0 ↔ v = true ∧ r.issues ≠ []) ∧
    r.outputWritten = true ∧
    (v = false → r.issues = []) ∧
    runMain false t bom = runMain false t2 bom := by
  cases ha : applicationLicense bom with
  | none =>
    rw [runMain_eq_none_of_no_main v t bom ha] at h
    exact Option.noConfusion h
  | some mainLic =>
    cases hcs : bom.components.isEmpty with
    | true =>
      rw [runMain_eq_none_of_no_components v t bom hcs] at h
      exact Option.noConfusion h
    | false =>
      rw [runMain_eq v t bom mainLic ha hcs] at h
      have hr := (Option.some.inj h).symm
      subst hr
      refine ⟨?_, rfl, ?_, ?_⟩
      · cases v with
        | false => simp
        | true =>
          by_cases hA : auditComponents t mainLic bom.components = [] <;> simp [hA]
      · intro hv
        subst hv
        rfl
      · rw [runMain_eq false t bom mainLic ha hcs, runMain_eq false t2 bom mainLic ha hcs]
        rfl

theorem run_outcome_witness :
    (RunResult.mk "MIT" [] (groupComponents [⟨"d", "1", []⟩]) (licenseKeys [⟨"d", "1", []⟩])
      true 0).outputWritten = true :=
  (run_outcome false [] [("A", [])] ⟨⟨"app", "1", [⟨⟨"MIT"⟩⟩]⟩, [⟨"d", "1", []⟩]⟩
    (RunResult.mk "MIT" [] (groupComponents [⟨"d", "1", []⟩]) (licenseKeys [⟨"d", "1", []⟩])
      true 0) rfl).2.1

end Licenses
